import Mathlib

/-!
# A shallow embedding of `pydantic/_internal/_namespace_utils.py`

This file models the namespace-resolution utilities of the repository:

* `LazyLocalNamespace` — a lazily merged mapping over a list of namespaces
  (ascending priority; the merged `data` dict is the Python comprehension
  `{k: v for ns in namespaces for k, v in ns.items()}`);
* `get_module_ns_of` — module-namespace lookup through a module registry
  (standing for `sys.modules`), degrading to the empty namespace;
* `ns_from` — the builder producing a `NamespacesTuple` (globals, locals)
  for a single declaration site;
* `NsResolver` — the stateful resolver with a stack of class sites, an
  optional fallback namespace, an optional override namespace, and the
  `types_namespace` property.

Python objects appearing as namespace values are modelled by the inductive
type `Val`; declaration sites (classes, functions, bare annotation targets)
by the structure `Site`, whose `isType` flag plays the role of the source's
`isinstance(obj, type)` test.  Python dicts are modelled as association
lists with unique keys built by `dictOf`, which folds insertions
left-to-right so that a later binding of a key overwrites the earlier
value, exactly as dict construction does.

The `cached_property` caching of `types_namespace` (invalidated by
`push`/`pop` through `self.__dict__.pop('types_namespace', None)`) is an
implementation detail with no observable effect beyond recomputation: the
observable value is always a pure function of the resolver state, and it is
modelled as such here.
-/

/-- A generic type parameter (a PEP 695 `TypeVar`-like object): its
`__name__` and an identity tag distinguishing distinct parameter objects. -/
structure TParam where
  name : String
  uid : Nat
deriving DecidableEq

/-- Runtime values stored in namespaces.

* `atom n` — an opaque Python object;
* `tv t` — a type-variable object `t`;
* `params l` — a `__type_params__` tuple of type variables;
* `siteV isType name module members typeParams` — a declaration-site object
  (a class when `isType` is true; a function or bare annotation target
  otherwise), carrying `vars(obj)` as `members` and `__type_params__`. -/
inductive Val : Type where
  | atom : Nat → Val
  | tv : TParam → Val
  | params : List TParam → Val
  | siteV : Bool → String → Option String → List (String × Val) → List TParam → Val

/-- A namespace: an ordered association of names to values. -/
abbrev Scope := List (String × Val)

/-- A declaration site: the object handed to `ns_from` / `NsResolver.push`.
`isType` is the source's `isinstance(obj, type)`; `module` is
`getattr(obj, '__module__', None)` (with `none` also covering a falsy
module name); `members` is `vars(obj)`; `typeParams` is
`getattr(obj, '__type_params__', ())`. -/
structure Site where
  isType : Bool
  name : String
  module : Option String
  members : Scope
  typeParams : List TParam

/-- The site, seen as a value stored in a namespace (e.g. by the
self-reference entry `{obj.__name__: obj}`). -/
def Site.toVal (s : Site) : Val :=
  .siteV s.isType s.name s.module s.members s.typeParams

/-- Python dict insertion: overwrite the value in place if the key is
already present (keeping its first-insertion position), else append. -/
def dinsert (d : Scope) (k : String) (v : Val) : Scope :=
  match d with
  | [] => [(k, v)]
  | p :: rest => if p.1 = k then (k, v) :: rest else p :: dinsert rest k v

/-- Build a Python dict from a stream of key-value pairs, inserting
left-to-right (so a later pair with the same key overwrites the value). -/
def dictOfAux (d : Scope) : List (String × Val) → Scope
  | [] => d
  | p :: rest => dictOfAux (dinsert d p.1 p.2) rest

/-- `dictOf l` is the Python dict `{k: v for (k, v) in l}`. -/
def dictOf (l : List (String × Val)) : Scope :=
  dictOfAux [] l

/-- Dict lookup: the value at the first (and, in a `dictOf` image, only)
occurrence of the key, or `none` (a `KeyError` in the source). -/
def Scope.find : Scope → String → Option Val
  | [], _ => none
  | p :: rest, k => if p.1 = k then some p.2 else Scope.find rest k

/-- Last-wins lookup in a raw pair stream: the value of the *last* pair
carrying the key.  This is the specification of dict construction from a
stream with duplicate keys. -/
def lookupLast : List (String × Val) → String → Option Val
  | [], _ => none
  | p :: rest, k =>
    match lookupLast rest k with
    | some v => some v
    | none => if p.1 = k then some p.2 else none

/-- Does the namespace bind the name? -/
def hasName (s : Scope) (k : String) : Bool :=
  s.any (fun p => p.1 == k)

theorem find_dinsert_self (d : Scope) (k : String) (v : Val) :
    Scope.find (dinsert d k v) k = some v := by
  induction d with
  | nil => simp [dinsert, Scope.find]
  | cons p rest ih =>
    by_cases h : p.1 = k
    · simp [dinsert, h, Scope.find]
    · simp [dinsert, h, Scope.find, ih]

theorem find_dinsert_ne (d : Scope) (k : String) (v : Val) (k' : String)
    (hne : k' ≠ k) : Scope.find (dinsert d k v) k' = Scope.find d k' := by
  induction d with
  | nil => simp [dinsert, Scope.find, Ne.symm hne]
  | cons p rest ih =>
    by_cases h : p.1 = k
    · subst h
      simp [dinsert, Scope.find, Ne.symm hne]
    · by_cases h' : p.1 = k'
      · simp [dinsert, h, Scope.find, h', hne]
      · simp [dinsert, h, Scope.find, h', ih]

theorem find_dictOfAux (l : List (String × Val)) (d : Scope) (k : String) :
    Scope.find (dictOfAux d l) k = (lookupLast l k).or (Scope.find d k) := by
  induction l generalizing d with
  | nil => simp [dictOfAux, lookupLast, Option.or]
  | cons p rest ih =>
    rw [dictOfAux, ih, lookupLast]
    cases hrest : lookupLast rest k with
    | some v => simp [Option.or]
    | none =>
      by_cases h : p.1 = k
      · subst h
        simp [Option.or, find_dinsert_self]
      · simp [Option.or, h, find_dinsert_ne d p.1 p.2 k (fun hk => h hk.symm)]

/-- Lookup in the dict built from a pair stream is last-wins lookup in the
stream. -/
theorem find_dictOf (l : List (String × Val)) (k : String) :
    Scope.find (dictOf l) k = lookupLast l k := by
  rw [dictOf, find_dictOfAux]
  cases lookupLast l k <;> simp [Option.or, Scope.find]

theorem lookupLast_append (l₁ l₂ : List (String × Val)) (k : String) :
    lookupLast (l₁ ++ l₂) k = (lookupLast l₂ k).or (lookupLast l₁ k) := by
  induction l₁ with
  | nil => cases h : lookupLast l₂ k <;> simp [lookupLast, Option.or, h]
  | cons p rest ih =>
    rw [List.cons_append, lookupLast, ih, lookupLast]
    cases lookupLast l₂ k <;> cases lookupLast rest k <;> simp [Option.or]

theorem lookupLast_eq_none_iff (l : List (String × Val)) (k : String) :
    lookupLast l k = none ↔ ∀ p ∈ l, p.1 ≠ k := by
  induction l with
  | nil => simp [lookupLast]
  | cons p rest ih =>
    rw [lookupLast]
    constructor
    · intro h
      cases hrest : lookupLast rest k with
      | some v => rw [hrest] at h; simp at h
      | none =>
        rw [hrest] at h
        intro q hq
        rcases List.mem_cons.mp hq with hq | hq
        · subst hq
          intro hk
          rw [if_pos hk] at h
          simp at h
        · exact (ih.mp hrest) q hq
    · intro h
      have hrest : lookupLast rest k = none :=
        ih.mpr (fun q hq => h q (List.mem_cons_of_mem _ hq))
      rw [hrest, if_neg (h p (List.mem_cons_self _ _))]

theorem lookupLast_eq_find_of_nodup (l : List (String × Val)) (k : String)
    (h : (l.map Prod.fst).Nodup) : lookupLast l k = Scope.find l k := by
  induction l with
  | nil => rfl
  | cons p rest ih =>
    rw [List.map_cons, List.nodup_cons] at h
    rw [lookupLast, Scope.find]
    by_cases hk : p.1 = k
    · have hnone : lookupLast rest k = none := by
        rw [lookupLast_eq_none_iff]
        intro q hq hqk
        have hmem : q.1 ∈ rest.map Prod.fst := List.mem_map_of_mem Prod.fst hq
        rw [hqk, ← hk] at hmem
        exact h.1 hmem
      rw [hnone]
      simp [hk]
    · rw [ih h.2]
      cases Scope.find rest k <;> simp [hk]

theorem lookupLast_map_tv_self (tps : List TParam) (t : TParam)
    (ht : t ∈ tps) (hnd : (tps.map TParam.name).Nodup) :
    lookupLast (tps.map fun u => (u.name, Val.tv u)) t.name = some (Val.tv t) := by
  induction tps with
  | nil => cases ht
  | cons u rest ih =>
    rw [List.map_cons, List.nodup_cons] at hnd
    rw [List.map_cons, lookupLast]
    rcases List.mem_cons.mp ht with h | h
    · subst h
      have hnone : lookupLast (rest.map fun u => (u.name, Val.tv u)) t.name = none := by
        rw [lookupLast_eq_none_iff]
        intro q hq
        rcases List.mem_map.mp hq with ⟨w, hw, rfl⟩
        intro hqt
        exact hnd.1 (hqt ▸ List.mem_map_of_mem TParam.name hw)
      rw [hnone]
      simp
    · rw [ih h hnd.2]

/-- A type parameter of the site itself wins over any parameter of the
enclosing namespace carrying the same name, because the site's parameters
come later in the concatenated tuple. -/
theorem lookupLast_map_tv_append (pre tps : List TParam) (t : TParam)
    (ht : t ∈ tps) (hnd : (tps.map TParam.name).Nodup) :
    lookupLast ((pre ++ tps).map fun u => (u.name, Val.tv u)) t.name
      = some (Val.tv t) := by
  rw [List.map_append, lookupLast_append, lookupLast_map_tv_self tps t ht hnd]
  rfl

/-- `LazyLocalNamespace(*namespaces)`: constituent namespaces in ascending
order of priority.  The merged `data` dict is computed (lazily and cached in
the source, with no observable difference for a pure model) as the Python
comprehension `{k: v for ns in namespaces for k, v in ns.items()}`. -/
structure LazyLocalNamespace where
  namespaces : List Scope

/-- The cached `data` property: later constituents overwrite earlier ones. -/
def LazyLocalNamespace.data (L : LazyLocalNamespace) : Scope :=
  dictOf L.namespaces.flatten

/-- `__len__`: the number of distinct names. -/
def LazyLocalNamespace.len (L : LazyLocalNamespace) : Nat :=
  L.data.length

/-- `__getitem__`, with `none` standing for a `KeyError`. -/
def LazyLocalNamespace.getitem (L : LazyLocalNamespace) (k : String) : Option Val :=
  Scope.find L.data k

/-- `__contains__`. -/
def LazyLocalNamespace.hasKey (L : LazyLocalNamespace) (k : String) : Bool :=
  hasName L.data k

/-- `__iter__`: the keys, in dict insertion order. -/
def LazyLocalNamespace.keys (L : LazyLocalNamespace) : List String :=
  L.data.map Prod.fst

/-- A `MappingNamespace` value: either a plain dict or a
`LazyLocalNamespace`. -/
inductive MappingNs where
  | dict : Scope → MappingNs
  | lazy : LazyLocalNamespace → MappingNs

/-- The mapping's contents, as a dict. -/
def MappingNs.data : MappingNs → Scope
  | .dict d => dictOf d
  | .lazy L => L.data

/-- Mapping lookup (`__getitem__`), with `none` standing for a `KeyError`. -/
def MappingNs.getitem (m : MappingNs) (k : String) : Option Val :=
  Scope.find m.data k

/-- `NamespacesTuple(globals, locals)`. -/
structure NamespacesTuple where
  globals : Scope
  locals : MappingNs

/-- The module registry, standing for `sys.modules`: module name to module
`__dict__`. -/
abbrev Modules := List (String × Scope)

/-- `get_module_ns_of(obj)`: the `__dict__` of `sys.modules[obj.__module__]`,
or `{}` when `__module__` is missing/falsy or the module is not registered
(the `KeyError` branch). -/
def get_module_ns_of (mods : Modules) (obj : Site) : Scope :=
  match obj.module with
  | none => []
  | some m =>
    match mods.find? (fun p => p.1 == m) with
    | some p => p.2
    | none => []

/-- `parent_namespace.get('__type_params__', ())`.  In the source a present
but non-tuple value would fault at tuple concatenation; the model covers the
well-formed cases (key absent, or bound to a tuple of type variables). -/
def parentTypeParams (parent : Option Scope) : List TParam :=
  match parent with
  | none => []
  | some p =>
    match Scope.find p "__type_params__" with
    | some (Val.params l) => l
    | _ => []

/-- `ns_from(obj, parent_namespace)`: the `NamespacesTuple` for a single
declaration site.  Class sites (`isinstance(obj, type)`) contribute
`vars(obj)` and the self-reference `{obj.__name__: obj}`; every other site
contributes the PEP 695 type-parameter bindings
`{t.__name__: t for t in type_params}`, the parent's parameters first. -/
def ns_from (mods : Modules) (obj : Site) (parent_namespace : Option Scope) :
    NamespacesTuple :=
  let locals0 : List Scope :=
    match parent_namespace with
    | some p => [p]
    | none => []
  let global_ns := get_module_ns_of mods obj
  let locals_list : List Scope :=
    if obj.isType then
      locals0 ++ [obj.members, [(obj.name, obj.toVal)]]
    else
      let type_params := parentTypeParams parent_namespace ++ obj.typeParams
      locals0 ++ [type_params.map fun t => (t.name, Val.tv t)]
  ⟨global_ns, .lazy ⟨locals_list⟩⟩

/-- The state of an `NsResolver`: the base `namespaces_tuple`, the optional
fallback and override namespaces, and the stack of pushed class sites (last
element is the top, as in the source's `self._types_stack[-1]`). -/
structure NsResolver where
  base : NamespacesTuple
  fallback : Option Scope
  override : Option Scope
  stack : List Site

/-- `NsResolver(namespaces_tuple, fallback_namespace, override_namespace)`:
the stack starts empty; a missing `namespaces_tuple` defaults to
`NamespacesTuple({}, {})`. -/
def NsResolver.new (namespaces_tuple : Option NamespacesTuple)
    (fallback_namespace override_namespace : Option Scope) : NsResolver :=
  ⟨namespaces_tuple.getD ⟨[], .dict []⟩, fallback_namespace, override_namespace, []⟩

/-- The `types_namespace` property, as a pure function of the resolver state
and the module registry.  The source caches the value with `cached_property`
and `push`/`pop` drop the cache, so the observable value is always this
function of the current state. -/
def NsResolver.types_namespace (mods : Modules) (r : NsResolver) : NamespacesTuple :=
  match r.stack.getLast? with
  | none => r.base
  | some typ =>
    let globalns := get_module_ns_of mods typ
    let globalns :=
      match r.fallback with
      | some fb => dictOf (fb ++ globalns)
      | none => globalns
    let locals_list : List Scope := [typ.members, [(typ.name, typ.toVal)]]
    let locals_list :=
      match r.override with
      | some ov => locals_list ++ [ov]
      | none => locals_list
    ⟨globalns, .lazy ⟨locals_list⟩⟩

/-- The entry action of the `push(typ)` context manager: append the site to
the stack (the cached property is merely invalidated, which the pure model
needs not represent). -/
def NsResolver.push (r : NsResolver) (typ : Site) : NsResolver :=
  { r with stack := r.stack ++ [typ] }

/-- The exit action of `push` (`self._types_stack.pop()`): remove the top of
the stack, or fail (`none`, an `IndexError`) when the stack is empty. -/
def NsResolver.pop (r : NsResolver) : Option NsResolver :=
  match r.stack.getLast? with
  | none => none
  | some _ => some { r with stack := r.stack.dropLast }

theorem getitem_lazy (nss : List Scope) (k : String) :
    MappingNs.getitem (.lazy ⟨nss⟩) k = lookupLast nss.flatten k := by
  simp [MappingNs.getitem, MappingNs.data, LazyLocalNamespace.data, find_dictOf]

/-- The last (highest-priority) constituent containing the name, if any. -/
def lastContaining : List Scope → String → Option Scope
  | [], _ => none
  | s :: rest, k =>
    match lastContaining rest k with
    | some r => some r
    | none => if hasName s k then some s else none

theorem hasName_eq_false_iff (s : Scope) (k : String) :
    hasName s k = false ↔ ∀ p ∈ s, p.1 ≠ k := by
  simp [hasName]

theorem lookupLast_isSome_of_hasName (s : Scope) (k : String)
    (h : hasName s k = true) : (lookupLast s k).isSome = true := by
  rcases hv : lookupLast s k with _ | v
  · rw [lookupLast_eq_none_iff] at hv
    rw [hasName, List.any_eq_true] at h
    obtain ⟨p, hp, hpk⟩ := h
    exact absurd (by simpa using hpk) (hv p hp)
  · rfl

theorem lookupLast_flatten_eq_none (nss : List Scope) (k : String)
    (h : lastContaining nss k = none) : lookupLast nss.flatten k = none := by
  induction nss with
  | nil => rfl
  | cons s rest ih =>
    rw [lastContaining] at h
    cases hrest : lastContaining rest k with
    | some r => rw [hrest] at h; simp at h
    | none =>
      rw [hrest] at h
      by_cases hs : hasName s k
      · rw [if_pos hs] at h; simp at h
      · rw [List.flatten_cons, lookupLast_append, ih hrest]
        have hnone : lookupLast s k = none := by
          rw [lookupLast_eq_none_iff]
          exact (hasName_eq_false_iff s k).mp (by simpa using hs)
        rw [hnone]
        rfl

/-- C6 — For every sequence of constituent scopes (each a well-formed
mapping, i.e. with pairwise-distinct keys) passed to `LazyLocalNamespace`
and every name present in at least one constituent, `__getitem__` of that
name returns the value from the last (highest-priority) constituent that
contains the name — and some value is indeed returned. -/
theorem c6_last_constituent_wins (nss : List Scope) (k : String) (s : Scope)
    (hnd : ∀ c ∈ nss, (c.map Prod.fst).Nodup)
    (hlast : lastContaining nss k = some s) :
    LazyLocalNamespace.getitem ⟨nss⟩ k = Scope.find s k
      ∧ (Scope.find s k).isSome = true := by
  induction nss with
  | nil => cases hlast
  | cons c rest ih =>
    rw [lastContaining] at hlast
    have hgl : LazyLocalNamespace.getitem ⟨c :: rest⟩ k
        = (lookupLast rest.flatten k).or (lookupLast c k) := by
      simp [LazyLocalNamespace.getitem, LazyLocalNamespace.data, find_dictOf,
        lookupLast_append]
    cases hrest : lastContaining rest k with
    | some r =>
      rw [hrest] at hlast
      have hrs : r = s := by simpa using hlast
      subst hrs
      have ihh := ih (fun c hc => hnd c (List.mem_cons_of_mem _ hc)) hrest
      have hr : lookupLast rest.flatten k = Scope.find r k := by
        have hdef : LazyLocalNamespace.getitem ⟨rest⟩ k = lookupLast rest.flatten k := by
          simp [LazyLocalNamespace.getitem, LazyLocalNamespace.data, find_dictOf]
        rw [← hdef, ihh.1]
      refine ⟨?_, ihh.2⟩
      rw [hgl, hr]
      rcases hv : Scope.find r k with _ | v
      · rw [hv] at ihh
        exact absurd ihh.2 (by simp)
      · rfl
    | none =>
      rw [hrest] at hlast
      by_cases hs : hasName c k
      · rw [if_pos hs] at hlast
        have hcs : c = s := by simpa using hlast
        subst hcs
        have hnone := lookupLast_flatten_eq_none rest k hrest
        have hcnd := hnd c (List.mem_cons_self _ _)
        refine ⟨?_, ?_⟩
        · rw [hgl, hnone, ← lookupLast_eq_find_of_nodup c k hcnd]
          rfl
        · rw [← lookupLast_eq_find_of_nodup c k hcnd]
          exact lookupLast_isSome_of_hasName c k hs
      · rw [if_neg hs] at hlast; cases hlast

/-- Witness for C6: among `[{a ↦ atom 1, b ↦ atom 3}, {a ↦ atom 2}]` the
name `a` resolves to `atom 2`, the value from the last constituent
containing it. -/
theorem c6_last_constituent_wins_wit :
    LazyLocalNamespace.getitem
        ⟨[[("a", Val.atom 1), ("b", Val.atom 3)], [("a", Val.atom 2)]]⟩ "a"
      = Scope.find [("a", Val.atom 2)] "a"
      ∧ (Scope.find [("a", Val.atom 2)] "a").isSome = true :=
  c6_last_constituent_wins
    [[("a", Val.atom 1), ("b", Val.atom 3)], [("a", Val.atom 2)]] "a"
    [("a", Val.atom 2)]
    (by intro c hc
        rcases List.mem_cons.mp hc with h | h
        · subst h; simp
        · rcases List.mem_cons.mp h with h' | h'
          · subst h'; simp
          · cases h')
    (by simp [lastContaining, hasName])

/-- C10 — A `LazyLocalNamespace` built from zero constituent namespaces is
the empty mapping: length `0`, no keys, `__contains__` false everywhere and
`__getitem__` a `KeyError` everywhere. -/
theorem c10_empty_lazy_namespace :
    LazyLocalNamespace.len ⟨[]⟩ = 0 ∧ LazyLocalNamespace.keys ⟨[]⟩ = []
      ∧ ∀ k : String,
          LazyLocalNamespace.hasKey ⟨[]⟩ k = false
            ∧ LazyLocalNamespace.getitem ⟨[]⟩ k = none :=
  ⟨rfl, rfl, fun _ => ⟨rfl, rfl⟩⟩

/-- C7 — `push(site)` immediately followed by the matching `pop()` restores
the resolver state exactly, and with it the observable `types_namespace`
value. -/
theorem c7_push_pop_round_trip (mods : Modules) (r : NsResolver) (site : Site) :
    (r.push site).pop = some r
      ∧ ((r.push site).pop).map (NsResolver.types_namespace mods)
          = some (r.types_namespace mods) := by
  have h1 : (r.push site).pop = some r := by
    rw [NsResolver.push, NsResolver.pop]
    simp
  exact ⟨h1, by rw [h1]; rfl⟩

/-- C9 — `pop` fails exactly on the empty stack: a fresh/emptied resolver
signals the stack-misuse condition (`IndexError`, modelled as `none`), and
popping a non-empty stack always succeeds. -/
theorem c9_pop_only_fails_on_empty (r : NsResolver) :
    (r.stack = [] → r.pop = none)
      ∧ (r.stack ≠ [] → (r.pop).isSome = true) := by
  constructor
  · intro h
    simp [NsResolver.pop, h]
  · intro h
    rw [NsResolver.pop]
    cases hl : r.stack.getLast? with
    | none => exact absurd (List.getLast?_eq_none_iff.mp hl) h
    | some s => rfl

/-- Witness for C9: a freshly constructed resolver fails to pop, and after
one push the pop succeeds. -/
theorem c9_pop_only_fails_on_empty_wit :
    (NsResolver.new none none none).pop = none
      ∧ (((NsResolver.new none none none).push
            ⟨true, "A", none, [], []⟩).pop).isSome = true :=
  ⟨(c9_pop_only_fails_on_empty (NsResolver.new none none none)).1 rfl,
   (c9_pop_only_fails_on_empty ((NsResolver.new none none none).push
      ⟨true, "A", none, [], []⟩)).2 (by simp [NsResolver.new, NsResolver.push])⟩

theorem locals_getitem_no_override (mods : Modules) (r : NsResolver) (top : Site)
    (k : String) (htop : r.stack.getLast? = some top) (ho : r.override = none) :
    MappingNs.getitem ((r.types_namespace mods).locals) k
      = lookupLast (top.members ++ [(top.name, top.toVal)]) k := by
  have hl : (r.types_namespace mods).locals
      = MappingNs.lazy ⟨[top.members, [(top.name, top.toVal)]]⟩ := by
    simp [NsResolver.types_namespace, htop, ho]
  rw [hl, getitem_lazy]
  simp

theorem locals_getitem_override (mods : Modules) (r : NsResolver) (top : Site)
    (ov : Scope) (k : String) (htop : r.stack.getLast? = some top)
    (ho : r.override = some ov) :
    MappingNs.getitem ((r.types_namespace mods).locals) k
      = lookupLast (top.members ++ ([(top.name, top.toVal)] ++ ov)) k := by
  have hl : (r.types_namespace mods).locals
      = MappingNs.lazy ⟨[top.members, [(top.name, top.toVal)], ov]⟩ := by
    simp [NsResolver.types_namespace, htop, ho]
  rw [hl, getitem_lazy]
  simp

/-- C1 (counterexample) — With an empty stack, a base pair whose globals
are empty and a fallback binding `a ↦ atom 1`, the globals returned by
`types_namespace` do *not* bind `a`: the fallback is not merged into the
result in the empty-stack state, contrary to the claim. -/
theorem c1_cex_empty_stack_ignores_fallback :
    Scope.find ((NsResolver.types_namespace []
        ⟨⟨[], .dict []⟩, some [("a", Val.atom 1)], none, []⟩).globals) "a" = none
      ∧ ¬ (Scope.find ((NsResolver.types_namespace []
          ⟨⟨[], .dict []⟩, some [("a", Val.atom 1)], none, []⟩).globals) "a"
            = some (Val.atom 1)) := by
  constructor
  · rfl
  · intro h
    have h0 : Scope.find ((NsResolver.types_namespace []
        ⟨⟨[], .dict []⟩, some [("a", Val.atom 1)], none, []⟩).globals) "a"
          = none := rfl
    rw [h0] at h
    exact Option.noConfusion h

/-- C1 (amended) — With an empty stack, `types_namespace` returns the base
`NamespacesTuple` unchanged; neither the fallback nor the override namespace
is merged in the empty-stack state. -/
theorem c1_empty_stack_returns_base (mods : Modules) (r : NsResolver)
    (h : r.stack = []) : r.types_namespace mods = r.base := by
  simp [NsResolver.types_namespace, h]

/-- Witness for C1: a concrete resolver with fallback and override present
still returns its base tuple unchanged while the stack is empty. -/
theorem c1_empty_stack_returns_base_wit :
    NsResolver.types_namespace []
        ⟨⟨[("g", Val.atom 4)], .dict []⟩, some [("a", Val.atom 1)],
          some [("b", Val.atom 2)], []⟩
      = ⟨[("g", Val.atom 4)], .dict []⟩ :=
  c1_empty_stack_returns_base [] _ rfl

/-- C3 (counterexample) — With an empty stack and an override binding
`a ↦ atom 1`, `types_namespace` does *not* apply the override: its locals do
not bind `a`.  The override is applied only in the non-empty-stack state,
contrary to the claim's "always applied whenever present". -/
theorem c3_cex_empty_stack_ignores_override :
    MappingNs.getitem ((NsResolver.types_namespace []
        ⟨⟨[], .dict []⟩, none, some [("a", Val.atom 1)], []⟩).locals) "a" = none
      ∧ ¬ (MappingNs.getitem ((NsResolver.types_namespace []
          ⟨⟨[], .dict []⟩, none, some [("a", Val.atom 1)], []⟩).locals) "a"
            = some (Val.atom 1)) := by
  constructor
  · rfl
  · intro h
    have h0 : MappingNs.getitem ((NsResolver.types_namespace []
        ⟨⟨[], .dict []⟩, none, some [("a", Val.atom 1)], []⟩).locals) "a"
          = none := rfl
    rw [h0] at h
    exact Option.noConfusion h

/-- C3 (amended) — When the stack is non-empty and an override namespace is
present, every name bound by the override resolves in `current().inner` to
the override's value, whatever the top site's member mapping and the
self-reference bind. -/
theorem c3_override_wins_on_stack (mods : Modules) (r : NsResolver) (top : Site)
    (ov : Scope) (k : String) (v : Val)
    (htop : r.stack.getLast? = some top)
    (ho : r.override = some ov)
    (hv : Scope.find (dictOf ov) k = some v) :
    MappingNs.getitem ((r.types_namespace mods).locals) k = some v := by
  rw [locals_getitem_override mods r top ov k htop ho]
  rw [find_dictOf] at hv
  rw [lookupLast_append, lookupLast_append, hv]
  rfl

/-- Witness for C3: with top-site members binding `a ↦ atom 1` and an
override binding `a ↦ atom 9`, the inner namespace yields `atom 9`. -/
theorem c3_override_wins_on_stack_wit :
    MappingNs.getitem ((NsResolver.types_namespace []
        ⟨⟨[], .dict []⟩, none, some [("a", Val.atom 9)],
          [⟨true, "C", none, [("a", Val.atom 1)], []⟩]⟩).locals) "a"
      = some (Val.atom 9) :=
  c3_override_wins_on_stack [] _ ⟨true, "C", none, [("a", Val.atom 1)], []⟩
    [("a", Val.atom 9)] "a" (Val.atom 9) rfl rfl rfl

/-- C8 (counterexample) — A class site named `Foo` is pushed, but the
resolver's override binds `Foo ↦ atom 7`: `current().inner` then yields the
override's value, not the site itself, so the self-reference does not hold
for *every* resolver state. -/
theorem c8_cex_override_shadows_self_reference :
    MappingNs.getitem ((NsResolver.types_namespace []
        ⟨⟨[], .dict []⟩, none, some [("Foo", Val.atom 7)],
          [⟨true, "Foo", none, [], []⟩]⟩).locals) "Foo" = some (Val.atom 7)
      ∧ ¬ (MappingNs.getitem ((NsResolver.types_namespace []
          ⟨⟨[], .dict []⟩, none, some [("Foo", Val.atom 7)],
            [⟨true, "Foo", none, [], []⟩]⟩).locals) "Foo"
              = some (Site.toVal ⟨true, "Foo", none, [], []⟩)) := by
  have h0 : MappingNs.getitem ((NsResolver.types_namespace []
      ⟨⟨[], .dict []⟩, none, some [("Foo", Val.atom 7)],
        [⟨true, "Foo", none, [], []⟩]⟩).locals) "Foo" = some (Val.atom 7) := rfl
  refine ⟨h0, ?_⟩
  intro h
  rw [h0] at h
  exact Val.noConfusion (Option.some.inj h)

/-- C8 (amended) — For a pushed class site at the top of the stack,
`current().inner` binds the site's name to the site itself whenever the
override namespace (if any) does not bind that name; in particular the
self-reference wins over a same-named entry of the member mapping, but the
override, when it binds the name, wins over the self-reference. -/
theorem c8_self_reference_in_inner (mods : Modules) (r : NsResolver) (top : Site)
    (htop : r.stack.getLast? = some top)
    (ho : ∀ ov, r.override = some ov → lookupLast ov top.name = none) :
    MappingNs.getitem ((r.types_namespace mods).locals) top.name
      = some top.toVal := by
  have hself : lookupLast [(top.name, top.toVal)] top.name = some top.toVal := by
    simp [lookupLast]
  cases hov : r.override with
  | none =>
    rw [locals_getitem_no_override mods r top top.name htop hov,
        lookupLast_append, hself]
    rfl
  | some ov =>
    rw [locals_getitem_override mods r top ov top.name htop hov,
        lookupLast_append, lookupLast_append, ho ov hov, hself]
    rfl

/-- Witness for C8: a class site `Foo` whose member mapping also binds
`Foo ↦ atom 1` — the inner namespace still yields the site itself. -/
theorem c8_self_reference_in_inner_wit :
    MappingNs.getitem ((NsResolver.types_namespace []
        ⟨⟨[], .dict []⟩, none, some [("y", Val.atom 3)],
          [⟨true, "Foo", none, [("Foo", Val.atom 1), ("x", Val.atom 2)], []⟩]⟩).locals)
        "Foo"
      = some (Site.toVal ⟨true, "Foo", none, [("Foo", Val.atom 1), ("x", Val.atom 2)], []⟩) :=
  c8_self_reference_in_inner [] _
    ⟨true, "Foo", none, [("Foo", Val.atom 1), ("x", Val.atom 2)], []⟩ rfl
    (by intro ov hov
        cases hov
        rfl)

/-- C2 (counterexample) — A class site introducing type parameter `T` (and
with empty member mapping) is pushed; `current().inner` does *not* bind `T`:
`types_namespace` never adds generic-parameter bindings. -/
theorem c2_cex_type_params_dropped :
    MappingNs.getitem ((NsResolver.types_namespace []
        ⟨⟨[], .dict []⟩, none, none,
          [⟨true, "C", none, [], [⟨"T", 0⟩]⟩]⟩).locals) "T" = none
      ∧ ¬ (MappingNs.getitem ((NsResolver.types_namespace []
          ⟨⟨[], .dict []⟩, none, none,
            [⟨true, "C", none, [], [⟨"T", 0⟩]⟩]⟩).locals) "T"
              = some (Val.tv ⟨"T", 0⟩)) := by
  have h0 : MappingNs.getitem ((NsResolver.types_namespace []
      ⟨⟨[], .dict []⟩, none, none,
        [⟨true, "C", none, [], [⟨"T", 0⟩]⟩]⟩).locals) "T" = none := rfl
  refine ⟨h0, ?_⟩
  intro h
  rw [h0] at h
  exact Option.noConfusion h

/-- C2 (amended) — `current().inner` for a non-empty stack layers only the
top site's member mapping, the self-reference singleton and (if present) the
override: a generic type-parameter name introduced by the top site is *not*
bound unless one of those three layers happens to bind it. -/
theorem c2_inner_has_no_type_params (mods : Modules) (r : NsResolver) (top : Site)
    (t : TParam)
    (htop : r.stack.getLast? = some top)
    (ht : t ∈ top.typeParams)
    (hn : t.name ≠ top.name)
    (hm : lookupLast top.members t.name = none)
    (ho : ∀ ov, r.override = some ov → lookupLast ov t.name = none) :
    MappingNs.getitem ((r.types_namespace mods).locals) t.name = none := by
  have hself : lookupLast [(top.name, top.toVal)] t.name = none := by
    simp [lookupLast, Ne.symm hn]
  cases hov : r.override with
  | none =>
    rw [locals_getitem_no_override mods r top t.name htop hov,
        lookupLast_append, hself, hm]
    rfl
  | some ov =>
    rw [locals_getitem_override mods r top ov t.name htop hov,
        lookupLast_append, lookupLast_append, ho ov hov, hself, hm]
    rfl

/-- Witness for C2: concrete class site `C` with type parameter `T` and
members `{x ↦ atom 1}` — `T` is absent from the inner namespace. -/
theorem c2_inner_has_no_type_params_wit :
    MappingNs.getitem ((NsResolver.types_namespace []
        ⟨⟨[], .dict []⟩, none, none,
          [⟨true, "C", none, [("x", Val.atom 1)], [⟨"T", 0⟩]⟩]⟩).locals) "T"
      = none :=
  c2_inner_has_no_type_params [] _ ⟨true, "C", none, [("x", Val.atom 1)], [⟨"T", 0⟩]⟩
    ⟨"T", 0⟩ rfl (by simp) (by decide) rfl
    (by intro ov hov
        exact Option.noConfusion hov)

theorem ns_from_fun_locals_none (mods : Modules) (obj : Site) (k : String)
    (hf : obj.isType = false) :
    MappingNs.getitem ((ns_from mods obj none).locals) k
      = lookupLast ((parentTypeParams none ++ obj.typeParams).map
          fun u => (u.name, Val.tv u)) k := by
  have hl : (ns_from mods obj none).locals
      = MappingNs.lazy ⟨[(parentTypeParams none ++ obj.typeParams).map
          fun u => (u.name, Val.tv u)]⟩ := by
    simp [ns_from, hf]
  rw [hl, getitem_lazy]
  simp

theorem ns_from_fun_locals_some (mods : Modules) (obj : Site) (p : Scope)
    (k : String) (hf : obj.isType = false) :
    MappingNs.getitem ((ns_from mods obj (some p)).locals) k
      = (lookupLast ((parentTypeParams (some p) ++ obj.typeParams).map
          fun u => (u.name, Val.tv u)) k).or (lookupLast p k) := by
  have hl : (ns_from mods obj (some p)).locals
      = MappingNs.lazy ⟨[p, (parentTypeParams (some p) ++ obj.typeParams).map
          fun u => (u.name, Val.tv u)]⟩ := by
    simp [ns_from, hf]
  rw [hl, getitem_lazy]
  simp [lookupLast_append]

/-- C4 (counterexample) — For the function-like site `f` introducing type
parameter `T` and with no member mapping, `ns_from`'s inner scope binds `T`
to the parameter object but contains *no* self-reference entry for `f`:
only class sites get the `{obj.__name__: obj}` entry. -/
theorem c4_cex_no_self_reference_for_functions :
    MappingNs.getitem ((ns_from [] ⟨false, "f", none, [], [⟨"T", 0⟩]⟩ none).locals)
        "T" = some (Val.tv ⟨"T", 0⟩)
      ∧ MappingNs.getitem ((ns_from [] ⟨false, "f", none, [], [⟨"T", 0⟩]⟩ none).locals)
          "f" = none
      ∧ ¬ (MappingNs.getitem ((ns_from [] ⟨false, "f", none, [], [⟨"T", 0⟩]⟩ none).locals)
          "f" = some (Site.toVal ⟨false, "f", none, [], [⟨"T", 0⟩]⟩)) := by
  have h0 : MappingNs.getitem
      ((ns_from [] ⟨false, "f", none, [], [⟨"T", 0⟩]⟩ none).locals) "f" = none := rfl
  refine ⟨rfl, h0, ?_⟩
  intro h
  rw [h0] at h
  exact Option.noConfusion h

/-- C4 (amended) — For a function-like site, `ns_from`'s inner scope binds
each type-parameter name introduced by the site to its parameter object,
the site's own parameters taking priority over same-named parameters pulled
from the parent namespace's `__type_params__` (which come first); and no
self-reference entry is added: the site's own name stays unbound unless the
parent namespace or a parameter name binds it. -/
theorem c4_fun_site_params_no_self_ref (mods : Modules) (obj : Site)
    (parent : Option Scope) (t : TParam)
    (hf : obj.isType = false)
    (ht : t ∈ obj.typeParams)
    (hnd : (obj.typeParams.map TParam.name).Nodup)
    (hname : ∀ u ∈ parentTypeParams parent ++ obj.typeParams, u.name ≠ obj.name)
    (hparent : ∀ p, parent = some p → lookupLast p obj.name = none) :
    MappingNs.getitem ((ns_from mods obj parent).locals) t.name = some (Val.tv t)
      ∧ MappingNs.getitem ((ns_from mods obj parent).locals) obj.name = none := by
  have htp : lookupLast ((parentTypeParams parent ++ obj.typeParams).map
      fun u => (u.name, Val.tv u)) t.name = some (Val.tv t) :=
    lookupLast_map_tv_append _ _ t ht hnd
  have hno : lookupLast ((parentTypeParams parent ++ obj.typeParams).map
      fun u => (u.name, Val.tv u)) obj.name = none := by
    rw [lookupLast_eq_none_iff]
    intro q hq
    rcases List.mem_map.mp hq with ⟨u, hu, rfl⟩
    exact hname u hu
  cases hp : parent with
  | none =>
    rw [hp] at htp hno
    exact ⟨by rw [ns_from_fun_locals_none mods obj t.name hf]; exact htp,
           by rw [ns_from_fun_locals_none mods obj obj.name hf]; exact hno⟩
  | some p =>
    rw [hp] at htp hno
    constructor
    · rw [ns_from_fun_locals_some mods obj p t.name hf, htp]
      rfl
    · rw [ns_from_fun_locals_some mods obj p obj.name hf, hno,
          hparent p hp]
      rfl

/-- Witness for C4: site `f` with parameter `T` (uid 0), and a parent
namespace whose `__type_params__` tuple carries a clashing `T` (uid 5) —
the site's own parameter wins, and `f` itself stays unbound. -/
theorem c4_fun_site_params_no_self_ref_wit :
    MappingNs.getitem ((ns_from [] ⟨false, "f", none, [], [⟨"T", 0⟩]⟩
        (some [("__type_params__", Val.params [⟨"T", 5⟩])])).locals) "T"
      = some (Val.tv ⟨"T", 0⟩)
      ∧ MappingNs.getitem ((ns_from [] ⟨false, "f", none, [], [⟨"T", 0⟩]⟩
          (some [("__type_params__", Val.params [⟨"T", 5⟩])])).locals) "f"
        = none :=
  c4_fun_site_params_no_self_ref [] ⟨false, "f", none, [], [⟨"T", 0⟩]⟩
    (some [("__type_params__", Val.params [⟨"T", 5⟩])]) ⟨"T", 0⟩
    rfl (by simp) (by simp) (by decide)
    (by intro p hp
        cases hp
        rfl)

/-- C5 (counterexample) — A bare annotation site (neither class-like nor
function-like, hence `isType = false` with no type parameters) whose owning
module *is* resolvable gets that module's namespace as its outer scope,
which is not empty — contrary to the claim that both scopes are always
empty for such sites. -/
theorem c5_cex_bare_site_gets_module_ns :
    (ns_from [("m", [("x", Val.atom 1)])]
        ⟨false, "ann", some "m", [], []⟩ none).globals = [("x", Val.atom 1)]
      ∧ ([("x", Val.atom 1)] : Scope) ≠ [] := by
  constructor
  · rfl
  · simp

/-- C5 (amended) — A bare annotation site is handled by the function branch
of `ns_from`: its outer scope is the owning module's namespace, and its
inner scope merges only the parent namespace (absent here) with the site's
type-parameter bindings (none for a bare target).  Both scopes are empty
exactly in the degraded case: unresolvable module, no parent, no type
parameters. -/
theorem c5_bare_site_empty_when_degraded (mods : Modules) (obj : Site)
    (hf : obj.isType = false) (htp : obj.typeParams = [])
    (hmod : get_module_ns_of mods obj = []) :
    (ns_from mods obj none).globals = []
      ∧ MappingNs.data ((ns_from mods obj none).locals) = [] := by
  constructor
  · simp [ns_from, hmod]
  · have hl : (ns_from mods obj none).locals
        = MappingNs.lazy ⟨[(parentTypeParams none ++ obj.typeParams).map
            fun u => (u.name, Val.tv u)]⟩ := by
      simp [ns_from, hf]
    rw [hl]
    simp [MappingNs.data, LazyLocalNamespace.data, parentTypeParams, htp,
      dictOf, dictOfAux]

/-- Witness for C5: a bare site in an unregistered module `m`, with no
parent and no type parameters, yields empty outer and inner scopes. -/
theorem c5_bare_site_empty_when_degraded_wit :
    (ns_from [] ⟨false, "ann", some "m", [], []⟩ none).globals = []
      ∧ MappingNs.data ((ns_from [] ⟨false, "ann", some "m", [], []⟩ none).locals)
        = [] :=
  c5_bare_site_empty_when_degraded [] ⟨false, "ann", some "m", [], []⟩ rfl rfl rfl
